import Mathlib

/-!
Verification of src/download.py (Shopee replay downloader).

Strings are embedded as lists of characters (`List Char`); the directory holding
segment files is embedded as the list of file names it contains; the network, the
interactive console and the external remux tool are embedded as oracles supplied in
an environment record.  Every definition follows the corresponding Python code,
including the standard-library routines it calls (urllib.parse.parse_qs,
urllib.parse.urlparse, str.rsplit, str.strip, str.split).
-/

namespace ShopeeReplay

/-- Characters stripped by Python str.strip, i.e. the full set for which
str.isspace holds: the ASCII whitespace and separator controls 09-0D, 1C-1F and 20,
and the Unicode whitespace code points 85, A0, 1680, 2000-200A, 2028, 2029, 202F,
205F and 3000. -/
def isPySpace (c : Char) : Bool :=
  (decide (0x09 ≤ c.toNat) && decide (c.toNat ≤ 0x0d)) ||
  (decide (0x1c ≤ c.toNat) && decide (c.toNat ≤ 0x20)) ||
  c.toNat == 0x85 || c.toNat == 0xa0 || c.toNat == 0x1680 ||
  (decide (0x2000 ≤ c.toNat) && decide (c.toNat ≤ 0x200a)) ||
  c.toNat == 0x2028 || c.toNat == 0x2029 || c.toNat == 0x202f ||
  c.toNat == 0x205f || c.toNat == 0x3000

/-- Python str.strip applied to a list of characters. -/
def pyStrip (s : List Char) : List Char :=
  ((s.dropWhile isPySpace).reverse.dropWhile isPySpace).reverse

/-- Python str.split with a one-character separator (the source splits the manifest
body on newlines and the query string on ampersands). -/
def splitOnChar (c : Char) : List Char → List (List Char)
  | [] => [[]]
  | x :: xs =>
    if x = c then [] :: splitOnChar c xs
    else
      match splitOnChar c xs with
      | [] => [[x]]
      | y :: ys => (x :: y) :: ys

/-- Python str.split with the separator and a limit of one, restricted to what
parse_qsl needs: split at the first occurrence of the separator, or report that the
separator is absent. -/
def splitOnceAt (c : Char) : List Char → Option (List Char × List Char)
  | [] => none
  | x :: xs =>
    if x = c then some ([], xs)
    else
      match splitOnceAt c xs with
      | none => none
      | some (a, b) => some (x :: a, b)

/-- Value of a hexadecimal digit, used by percent decoding in urllib.parse.unquote. -/
def hexVal? (c : Char) : Option Nat :=
  if c.isDigit then some (c.toNat - 48)
  else if 'a' ≤ c ∧ c ≤ 'f' then some (c.toNat - 87)
  else if 'A' ≤ c ∧ c ≤ 'F' then some (c.toNat - 55)
  else none

/-- Replacement character produced by UTF-8 decoding with replacement on error. -/
def replChar : Char := Char.ofNat 0xFFFD

/-- Lower bound of the first continuation byte of a three-byte sequence (the E0
lead excludes overlong encodings). -/
def cont3lo (b : Nat) : Nat := if b = 0xE0 then 0xA0 else 0x80

/-- Upper bound of the first continuation byte of a three-byte sequence (the ED
lead excludes surrogates). -/
def cont3hi (b : Nat) : Nat := if b = 0xED then 0x9F else 0xBF

/-- Lower bound of the first continuation byte of a four-byte sequence (the F0
lead excludes overlong encodings). -/
def cont4lo (b : Nat) : Nat := if b = 0xF0 then 0x90 else 0x80

/-- Upper bound of the first continuation byte of a four-byte sequence (the F4
lead keeps the code point below 110000). -/
def cont4hi (b : Nat) : Nat := if b = 0xF4 then 0x8F else 0xBF

/-- UTF-8 decoding of a byte sequence with replacement on error, as performed by
urllib.parse.unquote on the bytes collected from consecutive percent escapes.
Following CPython, an invalid sequence is replaced by one replacement character per
maximal subpart: the longest prefix of a valid sequence is consumed together (so a
truncated E0 A0 yields a single replacement character), while a byte that cannot
extend the current sequence is left to be decoded on its own. -/
def utf8DecodeReplace : List Nat → List Char
  | [] => []
  | b :: bs =>
    if b < 0x80 then Char.ofNat b :: utf8DecodeReplace bs
    else if 0xC2 ≤ b ∧ b ≤ 0xDF then
      match bs with
      | b2 :: rest =>
        if 0x80 ≤ b2 ∧ b2 ≤ 0xBF then
          Char.ofNat ((b - 0xC0) * 0x40 + (b2 - 0x80)) :: utf8DecodeReplace rest
        else replChar :: utf8DecodeReplace (b2 :: rest)
      | [] => [replChar]
    else if 0xE0 ≤ b ∧ b ≤ 0xEF then
      match bs with
      | b2 :: b3 :: rest =>
        if cont3lo b ≤ b2 ∧ b2 ≤ cont3hi b then
          if 0x80 ≤ b3 ∧ b3 ≤ 0xBF then
            Char.ofNat ((b - 0xE0) * 0x1000 + (b2 - 0x80) * 0x40 + (b3 - 0x80)) ::
              utf8DecodeReplace rest
          else replChar :: utf8DecodeReplace (b3 :: rest)
        else replChar :: utf8DecodeReplace (b2 :: b3 :: rest)
      | [b2] =>
        if cont3lo b ≤ b2 ∧ b2 ≤ cont3hi b then [replChar]
        else replChar :: utf8DecodeReplace [b2]
      | [] => [replChar]
    else if 0xF0 ≤ b ∧ b ≤ 0xF4 then
      match bs with
      | b2 :: b3 :: b4 :: rest =>
        if cont4lo b ≤ b2 ∧ b2 ≤ cont4hi b then
          if 0x80 ≤ b3 ∧ b3 ≤ 0xBF then
            if 0x80 ≤ b4 ∧ b4 ≤ 0xBF then
              Char.ofNat ((b - 0xF0) * 0x40000 + (b2 - 0x80) * 0x1000 + (b3 - 0x80) * 0x40 +
                (b4 - 0x80)) :: utf8DecodeReplace rest
            else replChar :: utf8DecodeReplace (b4 :: rest)
          else replChar :: utf8DecodeReplace (b3 :: b4 :: rest)
        else replChar :: utf8DecodeReplace (b2 :: b3 :: b4 :: rest)
      | [b2, b3] =>
        if cont4lo b ≤ b2 ∧ b2 ≤ cont4hi b then
          if 0x80 ≤ b3 ∧ b3 ≤ 0xBF then [replChar]
          else replChar :: utf8DecodeReplace [b3]
        else replChar :: utf8DecodeReplace [b2, b3]
      | [b2] =>
        if cont4lo b ≤ b2 ∧ b2 ≤ cont4hi b then [replChar]
        else replChar :: utf8DecodeReplace [b2]
      | [] => [replChar]
    else replChar :: utf8DecodeReplace bs

/-- Maximal run of percent escapes at the head of the string, mirroring how
urllib.parse.unquote groups consecutive escapes into one byte string before
decoding it. -/
def collectPctBytes : List Char → List Nat × List Char
  | '%' :: a :: b :: rest =>
    match hexVal? a, hexVal? b with
    | some ha, some hb =>
      let r := collectPctBytes rest
      ((16 * ha + hb) :: r.1, r.2)
    | _, _ => ([], '%' :: a :: b :: rest)
  | l => ([], l)

/-- Fuel-driven core of percent decoding; fuel equal to the length of the input is
always sufficient because every step consumes at least one character. -/
def pctDecodeAux : Nat → List Char → List Char
  | 0, l => l
  | _ + 1, [] => []
  | fuel + 1, c :: rest =>
    if c = '%' then
      match collectPctBytes (c :: rest) with
      | ([], _) => c :: pctDecodeAux fuel rest
      | (b :: bs, r) => utf8DecodeReplace (b :: bs) ++ pctDecodeAux fuel r
    else c :: pctDecodeAux fuel rest

/-- Percent decoding as performed by urllib.parse.unquote with replacement on
error. -/
def pctDecode (s : List Char) : List Char := pctDecodeAux s.length s

/-- Decoding applied by parse_qsl to each name and each value: the plus-to-space
replacement followed by percent decoding. -/
def unquotePlus (s : List Char) : List Char :=
  pctDecode (s.map fun c => if c = '+' then ' ' else c)

/-- Handling of one name-value field by urllib.parse.parse_qsl with default
options: an empty field is skipped, a field without an equals sign is dropped, a
field whose value is blank is dropped (keeping blank values is off), and the name
and the value are decoded. -/
def qslPair (nv : List Char) : Option (List Char × List Char) :=
  if nv = [] then none
  else
    match splitOnceAt '=' nv with
    | none => none
    | some (n, v) => if v = [] then none else some (unquotePlus n, unquotePlus v)

/-- Field splitting of urllib.parse.parse_qsl with default options: fields are
separated by ampersands and each field is handled by qslPair. -/
def parseQsl (qs : List Char) : List (List Char × List Char) :=
  (splitOnChar '&' qs).filterMap qslPair

/-- First value listed for a query-parameter name: parse_qs builds, for each name,
the list of its values in field order, and the source indexes that list at zero. -/
def getFirstQueryValue (qs nm : List Char) : Option (List Char) :=
  (((parseQsl qs).filter fun p => decide (p.1 = nm)).head?).map fun p => p.2

/-- Query component extracted by urllib.parse.urlparse: the fragment is split off at
the first hash, then the query is everything after the first question mark. -/
def urlQuery (url : List Char) : List Char :=
  match (url.takeWhile fun c => !decide (c = '#')).dropWhile (fun c => !decide (c = '?')) with
  | [] => []
  | _ :: rest => rest

/-- Result record of parse_shopee_url: the session, record and room identifiers
extracted from the query string, each possibly absent. -/
structure ReplayRef where
  session : Option (List Char)
  record : Option (List Char)
  room_id : Option (List Char)
deriving DecidableEq

/-- Body of the try block of parse_shopee_url (src/download.py lines 16-28), i.e.
the parse on an input where urlparse does not raise: parse the query string of the
URL and take the first value of each of the three parameters.  The except branch of
the source is the wrapper parse_shopee_url? below. -/
def parse_shopee_url (url : List Char) : ReplayRef :=
  let q := urlQuery url
  { session := getFirstQueryValue q "session".data,
    record := getFirstQueryValue q "record".data,
    room_id := getFirstQueryValue q "room_id".data }

/-- Characters urlsplit accepts in a scheme: ASCII letters and digits, plus, minus
and dot. -/
def schemeChars (c : Char) : Bool :=
  c.isAlpha || c.isDigit || c == '+' || c == '-' || c == '.'

/-- Test that a candidate scheme is non-empty and begins with an ASCII letter, as
urlsplit requires before it strips the scheme. -/
def headIsAsciiAlpha : List Char → Bool
  | [] => false
  | c :: _ => c.isAlpha

/-- Scheme stripping of urlsplit: when the text before the first colon is a
non-empty run of scheme characters starting with an ASCII letter, parsing continues
after the colon; otherwise the URL is used whole. -/
def afterScheme (url : List Char) : List Char :=
  match splitOnceAt ':' url with
  | none => url
  | some (before, after) =>
    if headIsAsciiAlpha before && before.all schemeChars then after else url

/-- Netloc extraction of urlsplit on the remainder after the scheme: when it starts
with a double slash, the netloc runs to the first slash, question mark or hash. -/
def netlocOf (rest : List Char) : List Char :=
  match rest with
  | a :: b :: r =>
    if a = '/' ∧ b = '/' then
      r.takeWhile fun c => !decide (c = '/') && !decide (c = '?') && !decide (c = '#')
    else []
  | _ => []

/-- Netloc of a URL as computed by urlsplit. -/
def urlNetloc (url : List Char) : List Char :=
  netlocOf (afterScheme url)

/-- Raise condition of urlsplit modelled for the claim theorems: every CPython 3
version raises Invalid IPv6 URL when the netloc contains a bracket without its
partner.  Newer CPython versions additionally validate the content of matched
brackets and delete embedded tab, CR and LF before parsing; the exit-status theorem
restricts its universally quantified branch to inputs on which all versions agree
with this embedding, and such inputs keep this condition false. -/
def urlparseRaises (url : List Char) : Bool :=
  (decide ('[' ∈ urlNetloc url) && !decide (']' ∈ urlNetloc url)) ||
  (decide (']' ∈ urlNetloc url) && !decide ('[' ∈ urlNetloc url))

/-- Embedding of the whole parse_shopee_url including its try/except (src/download.py
lines 13-31): None exactly when urlparse raises, the parsed record otherwise. -/
def parse_shopee_url? (url : List Char) : Option ReplayRef :=
  if urlparseRaises url then none else some (parse_shopee_url url)

/-- Characters of an input on which every CPython 3 version parses alike and this
embedding is exact: ASCII, no brackets (so no bracketed-host validation fires in any
version) and no embedded tab, CR or LF (so the byte-removal step of newer versions
is a no-op). -/
def urlSafeChar (c : Char) : Bool :=
  decide (c.toNat < 0x80) && !(c == '[') && !(c == ']') &&
    !(c == '\t') && !(c == '\r') && !(c == '\n')

/-- Suffix test corresponding to Python str.endswith. -/
def endsWithSuffix (suf s : List Char) : Bool :=
  suf == s.drop (s.length - suf.length)

/-- File-name suffix used to recognize transport-stream segments. -/
def tsSuffix : List Char := ".ts".data

/-- Embedding of clear_ts_files (src/download.py lines 7-11): every file of the
directory whose name ends in .ts is removed; all other files stay.  The directory is
embedded as the list of file names it contains. -/
def clear_ts_files (dir : List (List Char)) : List (List Char) :=
  dir.filter fun f => !endsWithSuffix tsSuffix f

/-- JSON member data.record_ids of the session-resolver response; the member may be
missing (the source reads it with dict.get and a default). -/
structure SessionData where
  record_ids : Option (List (List Char))
deriving DecidableEq

/-- JSON body of the session-resolver response; err_code, err_msg and data may each
be missing. -/
structure SessionResp where
  err_code : Option Int
  err_msg : Option (List Char)
  data : Option SessionData
deriving DecidableEq

/-- Embedding of get_record_ids (src/download.py lines 33-51) applied to a fetched
and JSON-decoded response body: the first component is the returned Python value
(None embedded as none), the second the list of console messages printed.  The
network-error and JSON-error except branches of the source also return None after a
message; they correspond to no decoded body and are outside this function. -/
def get_record_ids (session_id : List Char) (resp : SessionResp) :
    Option (List (List Char)) × List (List Char) :=
  if resp.err_code ≠ some 0 then
    (none, ["API Error: ".data ++ resp.err_msg.getD "Unknown error".data ++
      " for session ID: ".data ++ session_id])
  else
    (some (((resp.data.getD { record_ids := none }).record_ids).getD []), [])

/-- JSON member replay_info of the manifest-resolver response. -/
structure ReplayInfoJson where
  record_url : Option (List Char)
deriving DecidableEq

/-- JSON member data of the manifest-resolver response. -/
structure ReplayData where
  replay_info : Option ReplayInfoJson
deriving DecidableEq

/-- JSON body of the manifest-resolver response. -/
structure ReplayResp where
  err_code : Option Int
  err_msg : Option (List Char)
  data : Option ReplayData
deriving DecidableEq

/-- Embedding of get_m3u8_url (src/download.py lines 53-71) applied to a fetched and
JSON-decoded response body, with the same reading as get_record_ids: on success the
record_url member is returned with the empty string as default for missing members;
on an API-level error the server message is reported and None is returned. -/
def get_m3u8_url (record_id : List Char) (resp : ReplayResp) :
    Option (List Char) × List (List Char) :=
  if resp.err_code ≠ some 0 then
    (none, ["API Error: ".data ++ resp.err_msg.getD "Unknown error".data ++
      " for record ID: ".data ++ record_id])
  else
    (some ((((resp.data.getD { replay_info := none }).replay_info.getD
      { record_url := none }).record_url).getD []), [])

/-- Decimal digit character. -/
def digitChar (d : Nat) : Char := Char.ofNat (48 + d)

/-- Fuel-driven digit expansion behind the decimal rendering of a natural number. -/
def natToCharsAux : Nat → Nat → List Char
  | 0, _ => []
  | fuel + 1, n => if n = 0 then [] else natToCharsAux fuel (n / 10) ++ [digitChar (n % 10)]

/-- Decimal rendering of a natural number, as the f-strings of the source render the
segment index. -/
def natToChars (n : Nat) : List Char :=
  if n = 0 then ['0'] else natToCharsAux n n

/-- Name of the local file holding segment number i (source: segment_ followed by
the index and .ts). -/
def segName (i : Nat) : List Char :=
  "segment_".data ++ natToChars i ++ tsSuffix

/-- Name of the concat control file written for ffmpeg (line 124). -/
def concatTxt : List Char := "concat.txt".data

/-- Apostrophe character, written by code point to keep string literals plain. -/
def aposChar : Char := Char.ofNat 39

/-- Line written to the concat control file for segment number i (line 129): the
word file followed by the quoted segment file name. -/
def concatLine (i : Nat) : List Char :=
  "file ".data ++ [aposChar] ++ segName i ++ [aposChar]

/-- Creation of a file by open-for-writing: a directory entry appears if absent. -/
def insertFile (f : List Char) (dir : List (List Char)) : List (List Char) :=
  if f ∈ dir then dir else dir ++ [f]

/-- Deletion by os.remove guarded by os.path.exists, as in the cleanup code of
download_m3u8. -/
def removeFile (f : List Char) (dir : List (List Char)) : List (List Char) :=
  if f ∈ dir then dir.filter fun g => !decide (g = f) else dir

/-- Download loop of download_m3u8 (lines 104-122): for each index in order the
segment is fetched exactly once; on success the segment file is written, on failure
the index is skipped and never retried. -/
def writeSegments (n : Nat) (ok : Nat → Bool) (dir : List (List Char)) : List (List Char) :=
  (List.range n).foldl (fun d i => if ok i then insertFile (segName i) d else d) dir

/-- Concat-manifest construction (lines 124-129): one line per index whose segment
file exists in the directory, in increasing index order. -/
def concatLines (n : Nat) (dir : List (List Char)) : List (List Char) :=
  ((List.range n).filter fun i => decide (segName i ∈ dir)).map concatLine

/-- Segment part of the temporary-file cleanup after a successful conversion (lines
143-147): each segment file of the run is removed if present. -/
def removeSegs (n : Nat) (dir : List (List Char)) : List (List Char) :=
  (List.range n).foldl (fun d i => removeFile (segName i) d) dir

/-- Whole temporary-file cleanup after a successful conversion (lines 143-151): the
segment files of the run, then the concat control file. -/
def cleanupTemp (n : Nat) (dir : List (List Char)) : List (List Char) :=
  removeFile concatTxt (removeSegs n dir)

/-- Manifest line filter (lines 92-93): the body is split on newlines, each line is
stripped, and exactly the stripped lines ending in .ts are kept, in order. -/
def mediaLines (body : List Char) : List (List Char) :=
  ((splitOnChar '\n' body).map pyStrip).filter fun l => endsWithSuffix tsSuffix l

/-- Python str.rsplit with separator slash and limit one, component zero: the part
of the URL before its last slash, or the whole URL when it contains no slash. -/
def rsplitDir (url : List Char) : List Char :=
  match url.reverse.dropWhile (fun c => !decide (c = '/')) with
  | [] => url
  | _ :: t => t.reverse

/-- Segment URL resolution (lines 107-110): a reference starting with http is used
as is; otherwise the part of the playlist URL after its last slash is replaced by
the reference. -/
def resolveMediaUrl (playlist ref : List Char) : List Char :=
  if "http".data.isPrefixOf ref then ref
  else rsplitDir playlist ++ '/' :: ref

/-- Oracles consumed by one run of download_m3u8: the manifest-resolver outcome, the
playlist fetch outcome, the interactive file-name answer, the per-index segment
fetch outcomes, and the outcome of the ffmpeg invocation. -/
structure DlEnv where
  m3u8Result : Option (List Char)
  playlistBody : Option (List Char)
  userFileName : List Char
  segmentOk : Nat → Bool
  ffmpegOk : Bool

/-- Observable outcome of one run of download_m3u8: the returned flag, the directory
contents right after the initial cleanup and at the end, whether the playlist was
requested, whether the interactive prompt ran, the segment URLs requested in order,
and the lines written to the concat control file. -/
structure DlResult where
  success : Bool
  clearedDir : List (List Char)
  dir : List (List Char)
  playlistFetched : Bool
  prompted : Bool
  fetchAttempts : List (List Char)
  concatManifest : Option (List (List Char))
deriving DecidableEq

/-- Default output file name (line 100). -/
def defaultOutName (record_id : List Char) : List Char :=
  "shopee_replay_".data ++ record_id ++ ".mp4".data

/-- Embedding of download_m3u8 (src/download.py lines 73-154).  The steps in source
order: clear all .ts files; resolve the playlist URL and fail on None or the empty
string; fetch the playlist and fail on a network error; extract the media lines and
fail when there are none; prompt for the output name; fetch each segment once in
order, writing the successful ones; write the concat control file; run ffmpeg,
failing on an ffmpeg error with the temporary files left in place; on success write
the output file and remove the temporary segment and concat files. -/
def download_m3u8 (record_id : List Char) (dir0 : List (List Char)) (env : DlEnv) :
    DlResult :=
  let dir1 := clear_ts_files dir0
  match env.m3u8Result with
  | none =>
    { success := false, clearedDir := dir1, dir := dir1, playlistFetched := false,
      prompted := false, fetchAttempts := [], concatManifest := none }
  | some url =>
    if url = [] then
      { success := false, clearedDir := dir1, dir := dir1, playlistFetched := false,
        prompted := false, fetchAttempts := [], concatManifest := none }
    else
      match env.playlistBody with
      | none =>
        { success := false, clearedDir := dir1, dir := dir1, playlistFetched := true,
          prompted := false, fetchAttempts := [], concatManifest := none }
      | some body =>
        let lines := mediaLines body
        if lines = [] then
          { success := false, clearedDir := dir1, dir := dir1, playlistFetched := true,
            prompted := false, fetchAttempts := [], concatManifest := none }
        else
          let outName := if env.userFileName = [] then defaultOutName record_id
            else env.userFileName
          let n := lines.length
          let dir2 := writeSegments n env.segmentOk dir1
          let manifest := concatLines n dir2
          let dir3 := insertFile concatTxt dir2
          let attempts := lines.map (resolveMediaUrl url)
          if env.ffmpegOk then
            { success := true, clearedDir := dir1,
              dir := cleanupTemp n (insertFile outName dir3), playlistFetched := true,
              prompted := true, fetchAttempts := attempts, concatManifest := some manifest }
          else
            { success := false, clearedDir := dir1, dir := dir3, playlistFetched := true,
              prompted := true, fetchAttempts := attempts, concatManifest := some manifest }

/-- URL literal tested by startswith at line 163. -/
def shopeeUrlStart : List Char := "https://live.shopee.ph".data

/-- Oracles consumed by the module-level orchestration code: the console input, the
record-list resolution outcome for the session in play, and the per-record download
outcome. -/
structure MainEnv where
  rawInput : List Char
  recordIds : Option (List (List Char))
  downloadOk : List Char → Bool

/-- Observable outcome of the orchestration code: exit status of the process, the
record identifiers for which a download was run, and the tally of successes. -/
structure MainOutcome where
  exitCode : Nat
  attempted : List (List Char)
  successCount : Nat
deriving DecidableEq

/-- Session branch of the orchestrator (lines 187-204): resolve the record list.  A
non-empty list is downloaded sequentially with a tally, and the script falls off its
end with exit status zero; None or an empty list prints the no-records message and
also falls off the end with exit status zero. -/
def runSession (env : MainEnv) : MainOutcome :=
  match env.recordIds with
  | some (r :: rs) =>
    { exitCode := 0, attempted := r :: rs,
      successCount := ((r :: rs).filter env.downloadOk).length }
  | _ => { exitCode := 0, attempted := [], successCount := 0 }

/-- Embedding of the module-level code (src/download.py lines 156-204): input
starting with the platform URL literal is parsed, a parse exception or a falsy
session exits with status one, a truthy record from the URL is downloaded directly
with exit status one on failure, and every other path goes through the session
branch. -/
def mainRun (env : MainEnv) : MainOutcome :=
  let input := pyStrip env.rawInput
  if shopeeUrlStart.isPrefixOf input then
    match parse_shopee_url? input with
    | none => { exitCode := 1, attempted := [], successCount := 0 }
    | some parsed =>
      if (parsed.session.getD []) ≠ [] then
        let r := parsed.record.getD []
        if r ≠ [] then
          if env.downloadOk r then { exitCode := 0, attempted := [r], successCount := 1 }
          else { exitCode := 1, attempted := [r], successCount := 0 }
        else runSession env
      else { exitCode := 1, attempted := [], successCount := 0 }
  else runSession env

/-- Decimal-numeral test: a non-empty digit string without a superfluous leading
zero, i.e. exactly the strings Python str produces on a natural number. -/
def isDecimalNumeral (s : List Char) : Bool :=
  match s with
  | [] => false
  | ['0'] => true
  | c :: cs => c.isDigit && !decide (c = '0') && cs.all Char.isDigit

/-- Written from the claim wording, for comparison with the code: a file name of the
run naming pattern, segment_ followed by an index and .ts. -/
def isSegmentPatternName (f : List Char) : Bool :=
  "segment_".data.isPrefixOf f &&
    isDecimalNumeral ((f.drop 8).take ((f.drop 8).length - 3)) &&
    endsWithSuffix tsSuffix (f.drop 8)

/-- Written from the claim wording, for comparison with the code: a cleanup pass
that removes exactly the segment files matching the run naming pattern together with
the concat control file. -/
def claimedClear (dir : List (List Char)) : List (List Char) :=
  dir.filter fun f => !(isSegmentPatternName f || decide (f = concatTxt))

/-! Helper lemmas. -/

theorem endsWithSuffix_append (suf a : List Char) : endsWithSuffix suf (a ++ suf) = true := by
  unfold endsWithSuffix
  rw [List.length_append, Nat.add_sub_cancel, List.drop_left]
  exact beq_self_eq_true suf

theorem mem_clear_ts_files (dir : List (List Char)) (f : List Char) :
    f ∈ clear_ts_files dir ↔ f ∈ dir ∧ endsWithSuffix tsSuffix f = false := by
  simp [clear_ts_files, List.mem_filter]

theorem mem_insertFile (f g : List Char) (dir : List (List Char)) :
    f ∈ insertFile g dir ↔ f = g ∨ f ∈ dir := by
  unfold insertFile
  by_cases h : g ∈ dir
  · simp only [h, if_true]
    exact ⟨Or.inr, fun hc => hc.elim (fun e => e ▸ h) id⟩
  · simp [h, List.mem_append, or_comm]

theorem removeFile_eq_filter (f : List Char) (dir : List (List Char)) :
    removeFile f dir = dir.filter fun g => !decide (g = f) := by
  unfold removeFile
  by_cases h : f ∈ dir
  · simp [h]
  · simp only [h, if_false]
    refine (List.filter_eq_self.mpr ?_).symm
    intro a ha
    simp only [Bool.not_eq_true', decide_eq_false_iff_not]
    exact fun e => h (e ▸ ha)

theorem mem_removeFile (f g : List Char) (dir : List (List Char)) :
    f ∈ removeFile g dir ↔ f ∈ dir ∧ f ≠ g := by
  rw [removeFile_eq_filter]
  simp [List.mem_filter]

theorem foldl_removeSeg_eq_filter (l : List Nat) (dir : List (List Char)) :
    l.foldl (fun d i => removeFile (segName i) d) dir =
      dir.filter fun f => !decide (∃ i, i ∈ l ∧ f = segName i) := by
  induction l generalizing dir with
  | nil => simp
  | cons a t ih =>
    rw [List.foldl_cons, ih, removeFile_eq_filter, List.filter_filter]
    refine (List.filter_congr fun f _ => ?_).symm
    have hiff : (∃ i, i ∈ a :: t ∧ f = segName i) ↔
        (f = segName a ∨ ∃ i, i ∈ t ∧ f = segName i) := by
      constructor
      · rintro ⟨i, hmem, rfl⟩
        rcases List.mem_cons.mp hmem with h | h
        · exact Or.inl (by rw [h])
        · exact Or.inr ⟨i, h, rfl⟩
      · rintro (rfl | ⟨i, hi, rfl⟩)
        · exact ⟨a, List.mem_cons_self a t, rfl⟩
        · exact ⟨i, List.mem_cons_of_mem a hi, rfl⟩
    by_cases h1 : f = segName a <;> by_cases h2 : (∃ i, i ∈ t ∧ f = segName i) <;>
      simp [h1, h2, hiff]

theorem removeSegs_eq_filter (n : Nat) (dir : List (List Char)) :
    removeSegs n dir = dir.filter fun f => !decide (∃ i, i ∈ List.range n ∧ f = segName i) :=
  foldl_removeSeg_eq_filter (List.range n) dir

theorem cleanupTemp_eq_filter (n : Nat) (dir : List (List Char)) :
    cleanupTemp n dir = dir.filter fun f =>
      !decide (f = concatTxt) && !decide (∃ i, i ∈ List.range n ∧ f = segName i) := by
  unfold cleanupTemp
  rw [removeSegs_eq_filter, removeFile_eq_filter, List.filter_filter]

theorem mem_foldl_writeSeg (ok : Nat → Bool) (l : List Nat) (dir : List (List Char))
    (f : List Char) :
    f ∈ l.foldl (fun d i => if ok i then insertFile (segName i) d else d) dir ↔
      f ∈ dir ∨ ∃ i, i ∈ l ∧ ok i = true ∧ f = segName i := by
  induction l generalizing dir with
  | nil => simp
  | cons a t ih =>
    rw [List.foldl_cons, ih]
    by_cases h : ok a = true
    · rw [if_pos h, mem_insertFile]
      constructor
      · rintro ((rfl | hf) | ⟨i, hi, hoki, rfl⟩)
        · exact Or.inr ⟨a, List.mem_cons_self a t, h, rfl⟩
        · exact Or.inl hf
        · exact Or.inr ⟨i, List.mem_cons_of_mem a hi, hoki, rfl⟩
      · rintro (hf | ⟨i, hi, hoki, rfl⟩)
        · exact Or.inl (Or.inr hf)
        · rcases List.mem_cons.mp hi with rfl | hit
          · exact Or.inl (Or.inl rfl)
          · exact Or.inr ⟨i, hit, hoki, rfl⟩
    · rw [if_neg h]
      constructor
      · rintro (hf | ⟨i, hi, hoki, rfl⟩)
        · exact Or.inl hf
        · exact Or.inr ⟨i, List.mem_cons_of_mem a hi, hoki, rfl⟩
      · rintro (hf | ⟨i, hi, hoki, rfl⟩)
        · exact Or.inl hf
        · rcases List.mem_cons.mp hi with rfl | hit
          · exact absurd hoki h
          · exact Or.inr ⟨i, hit, hoki, rfl⟩

theorem mem_writeSegments (n : Nat) (ok : Nat → Bool) (dir : List (List Char))
    (f : List Char) :
    f ∈ writeSegments n ok dir ↔
      f ∈ dir ∨ ∃ i, i < n ∧ ok i = true ∧ f = segName i := by
  unfold writeSegments
  rw [mem_foldl_writeSeg]
  simp [List.mem_range]

theorem digitChar_inj_aux : ∀ d, d < 10 → ∀ e, e < 10 → digitChar d = digitChar e → d = e := by
  decide

theorem map_digitChar_inj (l1 : List Nat) : ∀ (l2 : List Nat), (∀ x ∈ l1, x < 10) →
    (∀ x ∈ l2, x < 10) → l1.map digitChar = l2.map digitChar → l1 = l2 := by
  induction l1 with
  | nil =>
    intro l2 _ _ h
    cases l2 with
    | nil => rfl
    | cons b t2 => simp at h
  | cons a t ih =>
    intro l2 h1 h2 h
    cases l2 with
    | nil => simp at h
    | cons b t2 =>
      simp only [List.map_cons, List.cons.injEq] at h
      have ha := h1 a (List.mem_cons_self a t)
      have hb := h2 b (List.mem_cons_self b t2)
      have hab := digitChar_inj_aux a ha b hb h.1
      subst hab
      rw [ih t2 (fun x hx => h1 x (List.mem_cons_of_mem a hx))
        (fun x hx => h2 x (List.mem_cons_of_mem a hx)) h.2]

theorem natToCharsAux_eq : ∀ (fuel n : Nat), n ≤ fuel →
    natToCharsAux fuel n = ((Nat.digits 10 n).map digitChar).reverse := by
  intro fuel
  induction fuel with
  | zero =>
    intro n hn
    have h0 : n = 0 := Nat.le_zero.mp hn
    subst h0
    simp [natToCharsAux]
  | succ fuel ih =>
    intro n hn
    by_cases h0 : n = 0
    · subst h0
      simp [natToCharsAux]
    · have hpos : 0 < n := Nat.pos_of_ne_zero h0
      have hdiv : n / 10 < n := Nat.div_lt_self hpos (by norm_num)
      have hle : n / 10 ≤ fuel := by omega
      rw [show natToCharsAux (fuel + 1) n = natToCharsAux fuel (n / 10) ++ [digitChar (n % 10)]
        from by simp [natToCharsAux, h0]]
      rw [ih (n / 10) hle, Nat.digits_def' (by norm_num : (1:ℕ) < 10) hpos,
        List.map_cons, List.reverse_cons]

theorem natToChars_eq (n : Nat) :
    natToChars n = if n = 0 then ['0'] else ((Nat.digits 10 n).map digitChar).reverse := by
  unfold natToChars
  by_cases h : n = 0
  · simp [h]
  · simp [h, natToCharsAux_eq n n le_rfl]

theorem digits_rev_map_inj (m n : Nat)
    (h : ((Nat.digits 10 m).map digitChar).reverse = ((Nat.digits 10 n).map digitChar).reverse) :
    m = n := by
  have h1 : (Nat.digits 10 m).map digitChar = (Nat.digits 10 n).map digitChar := by
    have h2 := congrArg List.reverse h
    simpa using h2
  have h2 : Nat.digits 10 m = Nat.digits 10 n :=
    map_digitChar_inj _ _ (fun x hx => Nat.digits_lt_base (by norm_num) hx)
      (fun x hx => Nat.digits_lt_base (by norm_num) hx) h1
  have h3 := Nat.ofDigits_digits 10 m
  rw [h2, Nat.ofDigits_digits] at h3
  exact h3.symm

theorem digits_map_ne_zero_chars (n : Nat) (hn : n ≠ 0) :
    ((Nat.digits 10 n).map digitChar).reverse ≠ ['0'] := by
  intro h
  have h2 : (Nat.digits 10 n).map digitChar = List.map digitChar [0] := by
    have h3 := congrArg List.reverse h
    simp at h3
    rw [h3]
    decide
  have h4 : Nat.digits 10 n = [0] :=
    map_digitChar_inj _ [0] (fun x hx => Nat.digits_lt_base (by norm_num) hx)
      (by intro x hx; simp at hx; omega) h2
  have h5 := Nat.ofDigits_digits 10 n
  rw [h4, Nat.ofDigits_cons, Nat.ofDigits_nil] at h5
  simp at h5
  exact hn h5.symm

theorem natToChars_injective (m n : Nat) (h : natToChars m = natToChars n) : m = n := by
  rw [natToChars_eq, natToChars_eq] at h
  by_cases hm : m = 0 <;> by_cases hn : n = 0
  · rw [hm, hn]
  · rw [if_pos hm, if_neg hn] at h
    exact absurd h.symm (digits_map_ne_zero_chars n hn)
  · rw [if_neg hm, if_pos hn] at h
    exact absurd h (digits_map_ne_zero_chars m hm)
  · rw [if_neg hm, if_neg hn] at h
    exact digits_rev_map_inj m n h

theorem segName_injective (i j : Nat) (h : segName i = segName j) : i = j := by
  unfold segName at h
  exact natToChars_injective i j (List.append_cancel_left (List.append_cancel_right h))

theorem endsTs_segName (i : Nat) : endsWithSuffix tsSuffix (segName i) = true := by
  unfold segName
  exact endsWithSuffix_append tsSuffix _

theorem segMem_writeSegments (dir0 : List (List Char)) (n : Nat) (ok : Nat → Bool) (i : Nat)
    (hi : i < n) :
    segName i ∈ writeSegments n ok (clear_ts_files dir0) ↔ ok i = true := by
  rw [mem_writeSegments]
  constructor
  · rintro (hmem | ⟨j, _, hok, heq⟩)
    · have h2 := (mem_clear_ts_files dir0 _).mp hmem
      rw [endsTs_segName i] at h2
      exact absurd h2.2 (by simp)
    · rwa [segName_injective i j heq]
  · intro hok
    exact Or.inr ⟨i, hi, hok, rfl⟩

theorem concatLines_writeSegments (dir0 : List (List Char)) (n : Nat) (ok : Nat → Bool) :
    concatLines n (writeSegments n ok (clear_ts_files dir0)) =
      ((List.range n).filter ok).map concatLine := by
  unfold concatLines
  congr 1
  refine List.filter_congr fun i hi => ?_
  have hiff := segMem_writeSegments dir0 n ok i (List.mem_range.mp hi)
  by_cases h : ok i = true
  · simp [hiff, h]
  · simp only [Bool.not_eq_true] at h
    simp [hiff, h]

theorem rsplitDir_append (dir fname : List Char) (h : '/' ∉ fname) :
    rsplitDir (dir ++ '/' :: fname) = dir := by
  unfold rsplitDir
  have h1 : ∀ x ∈ fname.reverse, (!decide (x = '/')) = true := by
    intro x hx
    simp only [Bool.not_eq_true', decide_eq_false_iff_not]
    exact fun e => h (e ▸ List.mem_reverse.mp hx)
  rw [List.reverse_append, List.reverse_cons, List.append_assoc,
    List.dropWhile_append_of_pos h1]
  simp [List.dropWhile_cons]

theorem urlQuery_append (pre q : List Char) (h1 : '#' ∉ pre) (h2 : '?' ∉ pre) :
    urlQuery (pre ++ '?' :: q) = q.takeWhile fun c => !decide (c = '#') := by
  unfold urlQuery
  have ha : ∀ x ∈ pre, (!decide (x = '#')) = true := by
    intro x hx
    simp only [Bool.not_eq_true', decide_eq_false_iff_not]
    exact fun e => h1 (e ▸ hx)
  have hb : ∀ x ∈ pre, (!decide (x = '?')) = true := by
    intro x hx
    simp only [Bool.not_eq_true', decide_eq_false_iff_not]
    exact fun e => h2 (e ▸ hx)
  rw [List.takeWhile_append_of_pos ha, List.takeWhile_cons_of_pos (by decide),
    List.dropWhile_append_of_pos hb, List.dropWhile_cons_of_neg (by decide)]

theorem map_id_of_mem (f : Char → Char) : ∀ (s : List Char), (∀ x ∈ s, f x = x) →
    s.map f = s := by
  intro s
  induction s with
  | nil => intro _; rfl
  | cons a t ih =>
    intro h
    rw [List.map_cons, h a (List.mem_cons_self a t),
      ih fun x hx => h x (List.mem_cons_of_mem a hx)]

theorem pctDecodeAux_of_no_pct : ∀ (fuel : Nat) (l : List Char), '%' ∉ l →
    pctDecodeAux fuel l = l := by
  intro fuel
  induction fuel with
  | zero => intro l _; rfl
  | succ fuel ih =>
    intro l h
    cases l with
    | nil => rfl
    | cons c rest =>
      have hc : ¬(c = '%') := fun e => h (e ▸ List.mem_cons_self c rest)
      rw [pctDecodeAux, if_neg hc, ih rest fun hm => h (List.mem_cons_of_mem c hm)]

theorem unquotePlus_id (s : List Char) (h1 : '%' ∉ s) (h2 : '+' ∉ s) :
    unquotePlus s = s := by
  unfold unquotePlus
  have hmap : (s.map fun c => if c = '+' then ' ' else c) = s := by
    refine map_id_of_mem _ s fun x hx => ?_
    have hne : ¬(x = '+') := fun e => h2 (e ▸ hx)
    rw [if_neg hne]
  rw [hmap]
  exact pctDecodeAux_of_no_pct s.length s h1

theorem splitOnChar_of_not_mem (c : Char) : ∀ (a : List Char), c ∉ a →
    splitOnChar c a = [a] := by
  intro a
  induction a with
  | nil => intro _; rfl
  | cons x xs ih =>
    intro h
    have hx : ¬(x = c) := fun e => h (e ▸ List.mem_cons_self x xs)
    have ih2 := ih fun hm => h (List.mem_cons_of_mem x hm)
    simp [splitOnChar, hx, ih2]

theorem splitOnChar_append (c : Char) : ∀ (a b : List Char), c ∉ a →
    splitOnChar c (a ++ c :: b) = a :: splitOnChar c b := by
  intro a
  induction a with
  | nil => intro b _; simp [splitOnChar]
  | cons x xs ih =>
    intro b h
    have hx : ¬(x = c) := fun e => h (e ▸ List.mem_cons_self x xs)
    have ih2 := ih b fun hm => h (List.mem_cons_of_mem x hm)
    simp [splitOnChar, hx, ih2]

theorem splitOnceAt_append (c : Char) : ∀ (nm v : List Char), c ∉ nm →
    splitOnceAt c (nm ++ c :: v) = some (nm, v) := by
  intro nm
  induction nm with
  | nil => intro v _; simp [splitOnceAt]
  | cons x xs ih =>
    intro v h
    have hx : ¬(x = c) := fun e => h (e ▸ List.mem_cons_self x xs)
    have ih2 := ih v fun hm => h (List.mem_cons_of_mem x hm)
    simp [splitOnceAt, hx, ih2]

theorem qslPair_eq (nm v : List Char) (hnmE : '=' ∉ nm) (hv : v ≠ []) :
    qslPair (nm ++ '=' :: v) = some (unquotePlus nm, unquotePlus v) := by
  unfold qslPair
  rw [if_neg (by simp : ¬(nm ++ '=' :: v = [])), splitOnceAt_append '=' nm v hnmE]
  simp [hv]

theorem parseQsl_pair_cons (nm v tail : List Char) (hnmE : '=' ∉ nm)
    (hA : '&' ∉ nm ++ '=' :: v) (hv : v ≠ []) :
    parseQsl ((nm ++ '=' :: v) ++ '&' :: tail) =
      (unquotePlus nm, unquotePlus v) :: parseQsl tail := by
  unfold parseQsl
  rw [splitOnChar_append '&' _ tail hA, List.filterMap_cons, qslPair_eq nm v hnmE hv]

theorem parseQsl_pair_single (nm v : List Char) (hnmE : '=' ∉ nm)
    (hA : '&' ∉ nm ++ '=' :: v) (hv : v ≠ []) :
    parseQsl (nm ++ '=' :: v) = [(unquotePlus nm, unquotePlus v)] := by
  unfold parseQsl
  rw [splitOnChar_of_not_mem '&' _ hA, List.filterMap_cons, qslPair_eq nm v hnmE hv]
  rfl

theorem getFirstQueryValue_of_parse (qs nm v : List Char)
    (rest : List (List Char × List Char)) (h : parseQsl qs = (nm, v) :: rest) :
    getFirstQueryValue qs nm = some v := by
  unfold getFirstQueryValue
  rw [h, List.filter_cons]
  simp

theorem getFirstQueryValue_of_absent (qs nm : List Char)
    (h : ∀ p ∈ parseQsl qs, p.1 ≠ nm) : getFirstQueryValue qs nm = none := by
  unfold getFirstQueryValue
  have h2 : (parseQsl qs).filter (fun p => decide (p.1 = nm)) = [] :=
    List.filter_eq_nil_iff.mpr fun p hp => by simpa using h p hp
  rw [h2]
  rfl

theorem first_param_value (pre nm v tail : List Char)
    (hp1 : '#' ∉ pre) (hp2 : '?' ∉ pre)
    (hnmE : '=' ∉ nm) (hnmA : '&' ∉ nm) (hnmH : '#' ∉ nm)
    (hnmU : unquotePlus nm = nm)
    (hv : v ≠ []) (hvA : '&' ∉ v) (hvH : '#' ∉ v)
    (htail : tail = [] ∨ ∃ t2, tail = '&' :: t2) :
    getFirstQueryValue (urlQuery (pre ++ '?' :: (nm ++ '=' :: v ++ tail))) nm =
      some (unquotePlus v) := by
  rw [urlQuery_append pre _ hp1 hp2]
  have hA : '&' ∉ nm ++ '=' :: v := by
    intro hmem
    rcases List.mem_append.mp hmem with h | h
    · exact hnmA h
    · rcases List.mem_cons.mp h with h | h
      · exact absurd h (by decide)
      · exact hvA h
  have hq' : ∀ x ∈ nm ++ '=' :: v, (fun c => !decide (c = '#')) x = true := by
    intro x hx
    simp only [Bool.not_eq_true', decide_eq_false_iff_not]
    intro e
    subst e
    rcases List.mem_append.mp hx with h | h
    · exact hnmH h
    · rcases List.mem_cons.mp h with h | h
      · exact absurd h (by decide)
      · exact hvH h
  rw [List.takeWhile_append_of_pos hq']
  rcases htail with rfl | ⟨t2, rfl⟩
  · rw [show List.takeWhile (fun c => !decide (c = '#')) [] = ([] : List Char) from rfl,
      List.append_nil]
    have hr := getFirstQueryValue_of_parse (nm ++ '=' :: v) (unquotePlus nm)
      (unquotePlus v) [] (parseQsl_pair_single nm v hnmE hA hv)
    rwa [hnmU] at hr
  · rw [List.takeWhile_cons_of_pos (by decide)]
    have hr := getFirstQueryValue_of_parse
      ((nm ++ '=' :: v) ++ '&' :: List.takeWhile (fun c => !decide (c = '#')) t2)
      (unquotePlus nm) (unquotePlus v) _ (parseQsl_pair_cons nm v _ hnmE hA hv)
    rwa [hnmU] at hr

theorem splitOnceAt_eq (c : Char) : ∀ (l a b : List Char), splitOnceAt c l = some (a, b) →
    l = a ++ c :: b := by
  intro l
  induction l with
  | nil => intro a b h; exact absurd h (by simp [splitOnceAt])
  | cons x xs ih =>
    intro a b h
    by_cases hx : x = c
    · simp only [splitOnceAt] at h
      rw [if_pos hx] at h
      injection h with h1
      injection h1 with h2 h3
      subst h2
      subst h3
      rw [hx]
      rfl
    · simp only [splitOnceAt] at h
      rw [if_neg hx] at h
      cases hs : splitOnceAt c xs with
      | none => rw [hs] at h; exact absurd h (by simp)
      | some p =>
        obtain ⟨a2, b2⟩ := p
        rw [hs] at h
        injection h with h1
        injection h1 with h2 h3
        subst h2
        subst h3
        rw [ih a2 b2 hs]
        rfl

theorem mem_afterScheme (url : List Char) (x : Char) (hx : x ∈ afterScheme url) :
    x ∈ url := by
  unfold afterScheme at hx
  cases hs : splitOnceAt ':' url with
  | none => rw [hs] at hx; exact hx
  | some p =>
    obtain ⟨before, after⟩ := p
    simp only [hs] at hx
    by_cases hc : (headIsAsciiAlpha before && before.all schemeChars) = true
    · rw [if_pos hc] at hx
      rw [splitOnceAt_eq ':' url before after hs]
      exact List.mem_append.mpr (Or.inr (List.mem_cons_of_mem _ hx))
    · rw [if_neg hc] at hx
      exact hx

theorem mem_netlocOf (rest : List Char) (x : Char) (hx : x ∈ netlocOf rest) :
    x ∈ rest := by
  cases rest with
  | nil => simp [netlocOf] at hx
  | cons a t =>
    cases t with
    | nil => simp [netlocOf] at hx
    | cons b r =>
      simp only [netlocOf] at hx
      by_cases hab : a = '/' ∧ b = '/'
      · rw [if_pos hab] at hx
        exact List.mem_cons_of_mem a (List.mem_cons_of_mem b
          ((List.takeWhile_sublist _).subset hx))
      · rw [if_neg hab] at hx
        simp at hx

theorem mem_urlNetloc (url : List Char) (x : Char) (hx : x ∈ urlNetloc url) :
    x ∈ url :=
  mem_afterScheme url x (mem_netlocOf (afterScheme url) x hx)

theorem urlparseRaises_false_of_safe (input : List Char)
    (hsafe : input.all urlSafeChar = true) : urlparseRaises input = false := by
  have hnb1 : ¬('[' ∈ urlNetloc input) := by
    intro hm
    have h2 := List.all_eq_true.mp hsafe '[' (mem_urlNetloc input '[' hm)
    exact absurd h2 (by decide)
  have hnb2 : ¬(']' ∈ urlNetloc input) := by
    intro hm
    have h2 := List.all_eq_true.mp hsafe ']' (mem_urlNetloc input ']' hm)
    exact absurd h2 (by decide)
  unfold urlparseRaises
  simp [hnb1, hnb2]

theorem runSession_exitCode (env : MainEnv) : (runSession env).exitCode = 0 := by
  unfold runSession
  rcases env.recordIds with _ | ids
  · rfl
  · rcases ids with _ | ⟨r, rs⟩ <;> rfl

theorem nameEq_shape (nm v tail : List Char) :
    ((nm ++ ['=']) ++ v) ++ tail = (nm ++ '=' :: v) ++ tail := by
  rw [List.append_assoc nm ['='] v, List.singleton_append]

/-! Claim theorems. -/

/-- C8: cleanup is idempotent and best-effort: the pre-run cleanup applied twice
equals the cleanup applied once, cleanup of an empty directory is empty and raises
nothing, the post-run temporary-file cleanup applied twice equals it applied once
and does nothing on an empty directory, and removing a missing file leaves the
directory unchanged (a missing file is not an error). -/
theorem cleanup_idempotent :
    (∀ dir : List (List Char), clear_ts_files (clear_ts_files dir) = clear_ts_files dir) ∧
    clear_ts_files [] = [] ∧
    (∀ (n : Nat) (dir : List (List Char)),
      cleanupTemp n (cleanupTemp n dir) = cleanupTemp n dir) ∧
    (∀ n : Nat, cleanupTemp n [] = []) ∧
    (∀ (g : List Char) (dir : List (List Char)), g ∉ dir → removeFile g dir = dir) := by
  refine ⟨?_, rfl, ?_, ?_, ?_⟩
  · intro dir
    simp [clear_ts_files, List.filter_filter]
  · intro n dir
    rw [cleanupTemp_eq_filter, cleanupTemp_eq_filter, List.filter_filter]
    refine List.filter_congr fun f _ => ?_
    cases h1 : decide (f = concatTxt) <;>
      cases h2 : decide (∃ i, i ∈ List.range n ∧ f = segName i) <;> simp [h1, h2]
  · intro n
    rw [cleanupTemp_eq_filter]
    rfl
  · intro g dir h
    unfold removeFile
    rw [if_neg h]

/-- Witness for cleanup_idempotent: removing a file that is not present leaves the
concrete directory unchanged. -/
theorem cleanup_idempotent_witness :
    removeFile "gone.ts".data ["keep.mp4".data] = ["keep.mp4".data] :=
  cleanup_idempotent.2.2.2.2 "gone.ts".data ["keep.mp4".data] (by decide)

/-- C6: for every manifest-resolver response with err_code zero, get_m3u8_url
returns data.replay_info.record_url verbatim, including when that value is the
empty string, and prints no message. -/
theorem record_url_verbatim (record_id url : List Char) (resp : ReplayResp)
    (h0 : resp.err_code = some 0)
    (h1 : resp.data = some { replay_info := some { record_url := some url } }) :
    get_m3u8_url record_id resp = (some url, []) := by
  unfold get_m3u8_url
  rw [if_neg (by simp [h0]), h1]
  rfl

/-- Witness: record_url_verbatim applied with the empty string as record_url. -/
theorem record_url_verbatim_witness :
    get_m3u8_url "r".data
      { err_code := some 0, err_msg := none,
        data := some { replay_info := some { record_url := some [] } } } =
      (some [], []) :=
  record_url_verbatim "r".data [] _ rfl rfl

/-- C2 as stated is false: on an API-level error get_record_ids returns the absent
value None, a failure value distinct from the empty record list the claim requires
(the concrete response is the err_code one, not-found case of the spec). -/
theorem api_error_returns_none_not_empty :
    (get_record_ids "123".data
      { err_code := some 1, err_msg := some "not found".data,
        data := some { record_ids := some [] } }).1 = none ∧
    (none : Option (List (List Char))) ≠ some [] := by
  decide

/-- C2 amended: on err_code nonzero the resolver prints the server-supplied message
and returns None — the same absent value as a network or JSON failure, not an
exception — and the orchestrator treats that None exactly as it treats an empty
record list. -/
theorem api_error_absent_and_equiv :
    (∀ (sid : List Char) (resp : SessionResp) (e : Int), resp.err_code = some e → e ≠ 0 →
      get_record_ids sid resp = (none, ["API Error: ".data ++
        resp.err_msg.getD "Unknown error".data ++ " for session ID: ".data ++ sid])) ∧
    (∀ (inp : List Char) (ok : List Char → Bool),
      mainRun { rawInput := inp, recordIds := none, downloadOk := ok } =
        mainRun { rawInput := inp, recordIds := some [], downloadOk := ok }) := by
  constructor
  · intro sid resp e h0 hne
    unfold get_record_ids
    rw [if_pos (by simp [h0, hne])]
  · intro inp ok
    rfl

/-- Witness: api_error_absent_and_equiv applied to the concrete not-found response
and to a concrete orchestrator environment. -/
theorem api_error_absent_and_equiv_witness :
    get_record_ids "123".data
      { err_code := some 1, err_msg := some "not found".data,
        data := some { record_ids := some [] } } =
      (none, ["API Error: not found for session ID: 123".data]) := by
  have h := api_error_absent_and_equiv.1 "123".data
    { err_code := some 1, err_msg := some "not found".data,
      data := some { record_ids := some [] } } 1 rfl (by decide)
  rw [h]
  decide

/-- C9: an empty record_url is treated identically to a resolution failure: the
download returns False, the whole observable outcome equals that of a None
resolution, and it happens before any playlist fetch, any prompt, and any segment
or manifest write (the final directory is just the cleared starting one). -/
theorem empty_record_url_early_failure (record_id : List Char) (dir0 : List (List Char))
    (env : DlEnv) (h : env.m3u8Result = some []) :
    download_m3u8 record_id dir0 env =
      download_m3u8 record_id dir0 { env with m3u8Result := none } ∧
    (download_m3u8 record_id dir0 env).success = false ∧
    (download_m3u8 record_id dir0 env).playlistFetched = false ∧
    (download_m3u8 record_id dir0 env).prompted = false ∧
    (download_m3u8 record_id dir0 env).dir = clear_ts_files dir0 ∧
    (download_m3u8 record_id dir0 env).concatManifest = none := by
  unfold download_m3u8
  rw [h]
  simp

/-- Witness: empty_record_url_early_failure at a concrete environment. -/
theorem empty_record_url_early_failure_witness :
    (download_m3u8 "r".data ["old.ts".data]
      { m3u8Result := some [], playlistBody := some "x.ts".data, userFileName := [],
        segmentOk := fun _ => true, ffmpegOk := true }).success = false ∧
    (download_m3u8 "r".data ["old.ts".data]
      { m3u8Result := some [], playlistBody := some "x.ts".data, userFileName := [],
        segmentOk := fun _ => true, ffmpegOk := true }).dir =
      clear_ts_files ["old.ts".data] :=
  ⟨(empty_record_url_early_failure "r".data ["old.ts".data] _ rfl).2.1,
    (empty_record_url_early_failure "r".data ["old.ts".data] _ rfl).2.2.2.2.1⟩

/-- C5: a segment reference starting with http is fetched as written (this substring
test is how the code detects an absolute URL), and every other reference is resolved
by rightmost-slash substitution — the playlist file name after the last slash is
replaced by the reference — not by RFC 3986 resolution. -/
theorem resolve_reference_semantics :
    (∀ playlist ref : List Char, "http".data.isPrefixOf ref = true →
      resolveMediaUrl playlist ref = ref) ∧
    (∀ dir fname ref : List Char, '/' ∉ fname → "http".data.isPrefixOf ref = false →
      resolveMediaUrl (dir ++ '/' :: fname) ref = dir ++ '/' :: ref) := by
  constructor
  · intro playlist ref h
    unfold resolveMediaUrl
    rw [if_pos h]
  · intro dir fname ref hf h
    unfold resolveMediaUrl
    rw [if_neg (by simp [h]), rsplitDir_append dir fname hf]

/-- Witness: the spec example — playlist master.m3u8 under path, reference
chunk_0.ts, resolved to the sibling chunk URL. -/
theorem resolve_reference_semantics_witness :
    resolveMediaUrl "https://cdn.example/path/master.m3u8".data "chunk_0.ts".data =
      "https://cdn.example/path/chunk_0.ts".data := by
  have h := resolve_reference_semantics.2 "https://cdn.example/path".data
    "master.m3u8".data "chunk_0.ts".data (by decide) (by decide)
  have e1 : "https://cdn.example/path/master.m3u8".data =
      "https://cdn.example/path".data ++ '/' :: "master.m3u8".data := by decide
  have e2 : "https://cdn.example/path/chunk_0.ts".data =
      "https://cdn.example/path".data ++ '/' :: "chunk_0.ts".data := by decide
  rw [e1, e2]
  exact h

/-- C3 as stated is false at a concrete directory: the pre-download cleanup deletes
video.ts, a file that does not match the run naming pattern, and keeps the concat
control file, so the sets of removed files differ from the claimed cleanup built
from the claim wording. -/
theorem clear_differs_from_claimed_clear :
    clear_ts_files ["video.ts".data, "concat.txt".data] = ["concat.txt".data] ∧
    claimedClear ["video.ts".data, "concat.txt".data] = ["video.ts".data] ∧
    clear_ts_files ["video.ts".data, "concat.txt".data] ≠
      claimedClear ["video.ts".data, "concat.txt".data] ∧
    isSegmentPatternName "video.ts".data = false := by
  decide

/-- C3 amended: before each record download the cleanup removes exactly the files
whose names end in .ts — this covers every leftover segment file of the run naming
pattern but also any other .ts file — and leaves every other file, the concat
control file included, in place; download_m3u8 performs this cleanup on the
starting directory before anything else. -/
theorem clear_removes_exactly_ts :
    (∀ (dir : List (List Char)) (f : List Char),
      f ∈ clear_ts_files dir ↔ f ∈ dir ∧ endsWithSuffix tsSuffix f = false) ∧
    (∀ i : Nat, endsWithSuffix tsSuffix (segName i) = true) ∧
    concatTxt ∈ clear_ts_files [concatTxt] ∧
    (∀ (record_id : List Char) (dir0 : List (List Char)) (env : DlEnv),
      (download_m3u8 record_id dir0 env).clearedDir = clear_ts_files dir0) := by
  refine ⟨mem_clear_ts_files, endsTs_segName, by decide, ?_⟩
  intro record_id dir0 env
  cases h1 : env.m3u8Result with
  | none => simp [download_m3u8, h1]
  | some url =>
    by_cases h2 : url = []
    · simp [download_m3u8, h1, h2]
    · cases h3 : env.playlistBody with
      | none => simp [download_m3u8, h1, h2, h3]
      | some body =>
        by_cases h4 : mediaLines body = []
        · simp [download_m3u8, h1, h2, h3, h4]
        · by_cases h5 : env.ffmpegOk = true <;>
            simp [download_m3u8, h1, h2, h3, h4, h5]

/-- C4: with a resolved playlist URL and a fetched manifest, the concat manifest
lists exactly the successfully fetched indices, in the index order that mirrors the
order of the manifest lines, and every segment reference is requested exactly once
in manifest order (failed indices are skipped, never retried). -/
theorem concat_manifest_exact (record_id : List Char) (dir0 : List (List Char))
    (env : DlEnv) (url body : List Char)
    (hm : env.m3u8Result = some url) (hurl : url ≠ [])
    (hb : env.playlistBody = some body) (hlines : mediaLines body ≠ []) :
    (download_m3u8 record_id dir0 env).concatManifest =
      some ((((List.range (mediaLines body).length).filter env.segmentOk)).map concatLine) ∧
    (download_m3u8 record_id dir0 env).fetchAttempts =
      (mediaLines body).map (resolveMediaUrl url) := by
  have hcore := concatLines_writeSegments dir0 (mediaLines body).length env.segmentOk
  by_cases h5 : env.ffmpegOk = true <;>
    simp [download_m3u8, hm, hurl, hb, hlines, h5, hcore]

/-- Witness: the spec example — three segment lines, the fetch of index one fails;
the concat manifest holds exactly the lines for indices zero and two, in that
order, and all three references were attempted once. -/
theorem concat_manifest_exact_witness :
    (download_m3u8 "r1".data []
      { m3u8Result := some "https://cdn.example/path/master.m3u8".data,
        playlistBody := some "seg0.ts\nseg1.ts\nseg2.ts".data,
        userFileName := "out.mp4".data,
        segmentOk := fun i => !decide (i = 1), ffmpegOk := true }).concatManifest =
      some [concatLine 0, concatLine 2] := by
  have h := (concat_manifest_exact "r1".data []
    { m3u8Result := some "https://cdn.example/path/master.m3u8".data,
      playlistBody := some "seg0.ts\nseg1.ts\nseg2.ts".data,
      userFileName := "out.mp4".data,
      segmentOk := fun i => !decide (i = 1), ffmpegOk := true }
    "https://cdn.example/path/master.m3u8".data "seg0.ts\nseg1.ts\nseg2.ts".data
    rfl (by decide) rfl (by decide)).1
  rw [h]
  decide

/-- C1 as stated is false on the code: with a plain session input that resolves to
zero records the process falls off the end of the script and exits zero, not
nonzero; and with a platform URL carrying a record identifier whose single download
fails the process exits nonzero although that is a per-record failure. -/
theorem no_records_exit_zero_and_direct_failure_exit_one :
    (mainRun
      { rawInput := "12345".data, recordIds := some [],
        downloadOk := fun _ => false }).exitCode = 0 ∧
    (mainRun
      { rawInput := "https://live.shopee.ph/pc/share?session=1&record=2".data,
        recordIds := none, downloadOk := fun _ => false }).exitCode = 1 := by
  decide

/-- C1 amended: on inputs whose stripped form is made of safe characters — ASCII
with no brackets and no embedded tab, CR or LF, so that every CPython 3 version
parses alike — the exit status is nonzero exactly when the input is a platform URL
whose parse yields no non-empty session, or a platform URL carrying a record
identifier whose single direct download fails; moreover a platform URL on which the
URL parser raises exits with status one, and every input outside the URL branch —
including a resolver answer of zero records and partial or total per-record
failures — ends with a normal zero exit. -/
theorem exit_code_characterization :
    (∀ env : MainEnv, (pyStrip env.rawInput).all urlSafeChar = true →
      ((mainRun env).exitCode ≠ 0 ↔
        shopeeUrlStart.isPrefixOf (pyStrip env.rawInput) = true ∧
          ((parse_shopee_url (pyStrip env.rawInput)).session.getD [] = [] ∨
            ((parse_shopee_url (pyStrip env.rawInput)).session.getD [] ≠ [] ∧
             (parse_shopee_url (pyStrip env.rawInput)).record.getD [] ≠ [] ∧
              env.downloadOk ((parse_shopee_url (pyStrip env.rawInput)).record.getD []) =
                false)))) ∧
    (∀ env : MainEnv, shopeeUrlStart.isPrefixOf (pyStrip env.rawInput) = true →
      parse_shopee_url? (pyStrip env.rawInput) = none →
      (mainRun env).exitCode = 1) ∧
    (∀ env : MainEnv, shopeeUrlStart.isPrefixOf (pyStrip env.rawInput) = false →
      (mainRun env).exitCode = 0) := by
  refine ⟨?_, ?_, ?_⟩
  · intro env hsafe
    have hraise := urlparseRaises_false_of_safe _ hsafe
    have hq : parse_shopee_url? (pyStrip env.rawInput) =
        some (parse_shopee_url (pyStrip env.rawInput)) := by
      simp [parse_shopee_url?, hraise]
    by_cases hu : shopeeUrlStart.isPrefixOf (pyStrip env.rawInput) = true
    · by_cases hs : (parse_shopee_url (pyStrip env.rawInput)).session.getD [] = []
      · simp [mainRun, hu, hq, hs]
      · by_cases hr : (parse_shopee_url (pyStrip env.rawInput)).record.getD [] = []
        · simp [mainRun, hu, hq, hs, hr, runSession_exitCode]
        · by_cases hd : env.downloadOk
              ((parse_shopee_url (pyStrip env.rawInput)).record.getD []) = true
          · simp [mainRun, hu, hq, hs, hr, hd]
          · simp [mainRun, hu, hq, hs, hr, hd]
    · simp [mainRun, hu, runSession_exitCode]
  · intro env hu hnone
    simp [mainRun, hu, hnone]
  · intro env hu
    simp [mainRun, hu, runSession_exitCode]

/-- Witness: exit_code_characterization applied at a concrete safe platform URL
whose query has no session parameter; the run exits with a nonzero status. -/
theorem exit_code_characterization_witness :
    (mainRun
      { rawInput := "https://live.shopee.ph/pc/share?record=2".data,
        recordIds := none, downloadOk := fun _ => true }).exitCode ≠ 0 :=
  (exit_code_characterization.1
    { rawInput := "https://live.shopee.ph/pc/share?record=2".data,
      recordIds := none, downloadOk := fun _ => true } (by decide)).mpr
    (by decide)

/-- C7 as stated is false at a concrete input: this well-formed replay URL carries a
session query parameter whose value is blank, yet the parser returns an absent
session rather than that value, because parse_qs drops blank-valued fields. -/
theorem blank_session_value_absent :
    urlQuery "https://live.shopee.ph/share?session=".data = "session=".data ∧
    (parse_shopee_url "https://live.shopee.ph/share?session=".data).session = none := by
  decide

/-- C7 amended: for every well-formed replay URL whose query carries a session
field with a non-empty decode-invariant value, the parser returns exactly that
value as session; a blank-valued field is dropped by the query parser; and each of
the three parameters comes back absent — with no exception — whenever no field of
that name survives parsing. -/
theorem session_param_parsing :
    (∀ pre v tail : List Char, '#' ∉ pre → '?' ∉ pre → v ≠ [] →
      '&' ∉ v → '#' ∉ v → '%' ∉ v → '+' ∉ v →
      (tail = [] ∨ ∃ t2, tail = '&' :: t2) →
      (parse_shopee_url (pre ++ '?' :: ("session=".data ++ v ++ tail))).session = some v) ∧
    (∀ url : List Char, (∀ p ∈ parseQsl (urlQuery url), p.1 ≠ "session".data) →
      (parse_shopee_url url).session = none) ∧
    (∀ url : List Char, (∀ p ∈ parseQsl (urlQuery url), p.1 ≠ "record".data) →
      (parse_shopee_url url).record = none) ∧
    (∀ url : List Char, (∀ p ∈ parseQsl (urlQuery url), p.1 ≠ "room_id".data) →
      (parse_shopee_url url).room_id = none) := by
  refine ⟨?_, ?_, ?_, ?_⟩
  · intro pre v tail hp1 hp2 hv hvA hvH hvP hvPl htail
    have hs : "session=".data = "session".data ++ ['='] := by decide
    rw [show ("session=".data ++ v) ++ tail = ("session".data ++ '=' :: v) ++ tail from by
      rw [hs, nameEq_shape]]
    simp only [parse_shopee_url]
    have h := first_param_value pre "session".data v tail hp1 hp2 (by decide) (by decide)
      (by decide) (by decide) hv hvA hvH htail
    rw [h, unquotePlus_id v hvP hvPl]
  · intro url h
    simp only [parse_shopee_url]
    exact getFirstQueryValue_of_absent _ _ h
  · intro url h
    simp only [parse_shopee_url]
    exact getFirstQueryValue_of_absent _ _ h
  · intro url h
    simp only [parse_shopee_url]
    exact getFirstQueryValue_of_absent _ _ h

/-- Witness: session_param_parsing at a concrete URL with session value 123, and at
the same URL for the absent record and room parameters. -/
theorem session_param_parsing_witness :
    (parse_shopee_url ("https://live.shopee.ph/share".data ++ '?' ::
      ("session=".data ++ "123".data ++ []))).session = some "123".data ∧
    (parse_shopee_url "https://live.shopee.ph/share?session=123".data).record = none ∧
    (parse_shopee_url "https://live.shopee.ph/share?session=123".data).room_id = none :=
  ⟨session_param_parsing.1 "https://live.shopee.ph/share".data "123".data []
      (by decide) (by decide) (by decide) (by decide) (by decide) (by decide) (by decide)
      (Or.inl rfl),
    session_param_parsing.2.2.1 _ (by decide),
    session_param_parsing.2.2.2 _ (by decide)⟩

/-- C10: when a query parameter appears more than once in the query string, the
parser returns the value of the first occurrence, for each of session, record and
room_id. -/
theorem duplicate_param_first_occurrence (pre v1 v2 : List Char)
    (hp1 : '#' ∉ pre) (hp2 : '?' ∉ pre) (hv : v1 ≠ []) (hvA : '&' ∉ v1) (hvH : '#' ∉ v1)
    (hvP : '%' ∉ v1) (hvPl : '+' ∉ v1) :
    (parse_shopee_url (pre ++ '?' :: ("session=".data ++ v1 ++
      ('&' :: ("session=".data ++ v2))))).session = some v1 ∧
    (parse_shopee_url (pre ++ '?' :: ("record=".data ++ v1 ++
      ('&' :: ("record=".data ++ v2))))).record = some v1 ∧
    (parse_shopee_url (pre ++ '?' :: ("room_id=".data ++ v1 ++
      ('&' :: ("room_id=".data ++ v2))))).room_id = some v1 := by
  refine ⟨?_, ?_, ?_⟩
  · have hs : "session=".data = "session".data ++ ['='] := by decide
    rw [show ("session=".data ++ v1) ++ ('&' :: ("session=".data ++ v2)) =
        ("session".data ++ '=' :: v1) ++ ('&' :: ("session=".data ++ v2)) from by
      rw [hs, nameEq_shape]]
    simp only [parse_shopee_url]
    have h := first_param_value pre "session".data v1 ('&' :: ("session=".data ++ v2))
      hp1 hp2 (by decide) (by decide) (by decide) (by decide) hv hvA hvH
      (Or.inr ⟨_, rfl⟩)
    rw [h, unquotePlus_id v1 hvP hvPl]
  · have hs : "record=".data = "record".data ++ ['='] := by decide
    rw [show ("record=".data ++ v1) ++ ('&' :: ("record=".data ++ v2)) =
        ("record".data ++ '=' :: v1) ++ ('&' :: ("record=".data ++ v2)) from by
      rw [hs, nameEq_shape]]
    simp only [parse_shopee_url]
    have h := first_param_value pre "record".data v1 ('&' :: ("record=".data ++ v2))
      hp1 hp2 (by decide) (by decide) (by decide) (by decide) hv hvA hvH
      (Or.inr ⟨_, rfl⟩)
    rw [h, unquotePlus_id v1 hvP hvPl]
  · have hs : "room_id=".data = "room_id".data ++ ['='] := by decide
    rw [show ("room_id=".data ++ v1) ++ ('&' :: ("room_id=".data ++ v2)) =
        ("room_id".data ++ '=' :: v1) ++ ('&' :: ("room_id=".data ++ v2)) from by
      rw [hs, nameEq_shape]]
    simp only [parse_shopee_url]
    have h := first_param_value pre "room_id".data v1 ('&' :: ("room_id=".data ++ v2))
      hp1 hp2 (by decide) (by decide) (by decide) (by decide) hv hvA hvH
      (Or.inr ⟨_, rfl⟩)
    rw [h, unquotePlus_id v1 hvP hvPl]

/-- Witness: duplicate_param_first_occurrence at a concrete URL whose query lists
the session parameter twice; the first value wins. -/
theorem duplicate_param_first_occurrence_witness :
    (parse_shopee_url ("https://live.shopee.ph/share".data ++ '?' ::
      ("session=".data ++ "a".data ++ ('&' :: ("session=".data ++ "b".data))))).session =
      some "a".data :=
  (duplicate_param_first_occurrence "https://live.shopee.ph/share".data "a".data "b".data
    (by decide) (by decide) (by decide) (by decide) (by decide) (by decide) (by decide)).1

end ShopeeReplay
